import Mathlib

/-!
Verification of the cli-plan-executor core: the Executable / Action / Step /
Plan hierarchy, its dry-run interception, description formatting, sequential
plan execution, fail-fast error propagation, and the command-line adapter.

The repository contains two design variants of the same core:
  * variant A ("Step-based", src/src/action.ts, plan.ts, handler-action.ts,
    command-line-action.ts, index.ts): `Action` is stateless and not itself
    executable; a `Step` binds an `Action` to concrete params and is the unit
    placed into a `Plan`; `Plan extends Executable` with no dry-run branch of
    its own.
  * variant B ("bound-params", the action/plan/handler-action/
    command-line-action modules where `Action extends Executable` and carries
    its `params`): `Action.execute` performs the dry-run interception for every
    subclass; `Plan extends Action` so its execution also goes through that
    interception, with the member loop living in the protected `Plan.run`.

Effectful TypeScript is embedded as pure state-passing: an execution returns a
trace of observable events (console.log lines, process spawns, abstract handler
effects), the execution context as the code leaves it (the context is passed by
reference in JS, so a mutation by a callee would be visible to the caller), and
an `Except` result modelling promise resolution/rejection.
-/

namespace CliPlanExecutor

/-- JavaScript runtime values, as far as the library manipulates them:
JSON-like data plus `undefined` and BigInt (the value class on which
`JSON.stringify` throws). -/
inductive JsValue where
  | null
  | undef
  | bool (b : Bool)
  | num (n : Int)
  | str (s : String)
  | bigint (n : Int)
  | arr (elems : List JsValue)
  | obj (fields : List (String × JsValue))

/-- The error rejected by `child_process.exec`'s callback on spawn failure or
non-zero/abnormal exit. Per Node semantics the error object carries the command
string (`error.cmd`) and a description of the triggering cause (spawn error, or
exit code/signal). The repository rejects this error unchanged. -/
structure ExecError where
  cmd : String
  cause : String
deriving Repr, DecidableEq

/-- Errors thrown/rejected inside the embedded code: `TypeError` raised by
`JSON.stringify`, the `child_process.exec` callback error, or an arbitrary
error thrown by user-supplied code (handlers, command builders). -/
inductive JsError where
  | typeError (msg : String)
  | execError (err : ExecError)
  | thrown (msg : String)
deriving Repr, DecidableEq

/-- One character of a JSON string literal, escaped as `JSON.stringify` does. -/
def escapeChar (c : Char) : String :=
  if c = '"' then "\\\""
  else if c = '\\' then "\\\\"
  else if c = '\n' then "\\n"
  else if c = '\t' then "\\t"
  else if c = '\r' then "\\r"
  else String.singleton c

/-- A JSON string literal: quotes around the escaped characters. -/
def jsQuote (s : String) : String :=
  "\"" ++ String.join (s.toList.map escapeChar) ++ "\""

mutual

/-- `JSON.stringify`, on the value space above, per ECMAScript: `undefined` at
top level yields no string (`.ok none`); inside an array an `undefined` element
renders as `"null"`; inside an object a field whose value serializes to
`undefined` is skipped; a BigInt anywhere throws a `TypeError`. -/
def jsonStringify : JsValue → Except JsError (Option String)
  | .null => .ok (some "null")
  | .undef => .ok none
  | .bool b => .ok (some (if b then "true" else "false"))
  | .num n => .ok (some (toString n))
  | .str s => .ok (some (jsQuote s))
  | .bigint _ => .error (.typeError "Do not know how to serialize a BigInt")
  | .arr elems =>
      match stringifyElems elems with
      | .error e => .error e
      | .ok parts => .ok (some ("[" ++ String.intercalate "," parts ++ "]"))
  | .obj fields =>
      match stringifyFields fields with
      | .error e => .error e
      | .ok parts => .ok (some ("\x7b" ++ String.intercalate "," parts ++ "\x7d"))

/-- Array elements under `JSON.stringify`: `undefined` renders as `"null"`. -/
def stringifyElems : List JsValue → Except JsError (List String)
  | [] => .ok []
  | v :: rest =>
      match jsonStringify v with
      | .error e => .error e
      | .ok s =>
          match stringifyElems rest with
          | .error e => .error e
          | .ok parts => .ok (s.getD "null" :: parts)

/-- Object fields under `JSON.stringify`: a field serializing to `undefined`
is omitted. -/
def stringifyFields : List (String × JsValue) → Except JsError (List String)
  | [] => .ok []
  | (k, v) :: rest =>
      match jsonStringify v with
      | .error e => .error e
      | .ok s =>
          match stringifyFields rest with
          | .error e => .error e
          | .ok parts =>
              match s with
              | none => .ok parts
              | some sv => .ok ((jsQuote k ++ ":" ++ sv) :: parts)

end

/-- JS template-literal interpolation of a possibly-undefined string:
`JSON.stringify(p)` can be `undefined`, which interpolates as "undefined". -/
def jsTemplate : Option String → String
  | none => "undefined"
  | some s => s

/-- The `ExecutionContext` interface: `cwd`, optional `dryRun`, optional `env`
overrides. The optional fields are `Option`s (`undefined` when absent); `env`
is a JS object modelled as an association list in insertion order. -/
structure ExecutionContext where
  cwd : String
  dryRun : Option Bool := none
  env : Option (List (String × String)) := none
deriving Repr, DecidableEq

/-- Truthiness of `ctx.dryRun` as tested by `if (ctx.dryRun)`: `undefined` is
falsy. -/
def ExecutionContext.isDryRun (ctx : ExecutionContext) : Bool :=
  ctx.dryRun.getD false

/-- Observable events of an execution: a `console.log` line, a child-process
spawn (with the command, working directory and environment passed to `exec`),
or an abstract side effect performed by user-supplied handler code. -/
inductive TraceEv where
  | log (line : String)
  | spawn (command : String) (cwd : String) (env : List (String × String))
  | effect (tag : String)
deriving Repr, DecidableEq

/-- Outcome of one execution: the event trace, the execution context as the
code leaves it (the context travels by reference, so mutations by callees are
visible), and promise resolution or rejection. -/
structure RunResult (α : Type) where
  trace : List TraceEv
  ctxAfter : ExecutionContext
  result : Except JsError α

/-- Lookup in a JS object modelled as an association list: the latest binding
for a key wins, as later object-literal/spread entries overwrite earlier ones. -/
def jsLookup (l : List (String × String)) (k : String) : Option String :=
  (l.reverse.find? (fun p => p.1 == k)).map Prod.snd

/-- The object spread `\x7b ...base, ...override \x7d` used to build the child
environment: appending the override entries after the base entries (a spread of
`undefined` contributes nothing). Under `jsLookup`, an override entry shadows a
base entry for the same key. -/
def spreadMerge (base : List (String × String))
    (override : Option (List (String × String))) : List (String × String) :=
  base ++ override.getD []

/-- Outcome of the platform shell running one command: captured stdout/stderr
on success, or a failure cause (spawn error, or non-zero exit code/signal). -/
inductive ShellOutcome where
  | success (stdout stderr : String)
  | failure (cause : String)
deriving Repr, DecidableEq

/-- The external platform shell as an oracle: command string, working
directory and environment determine the outcome. -/
abbrev ShellModel := String → String → List (String × String) → ShellOutcome

/-- A user-supplied handler function `(params, ctx) => result`. -/
abbrev HandlerFn := JsValue → ExecutionContext → RunResult JsValue

/-- A user-supplied command builder `(params) => commandString`; as arbitrary
JS code it may throw. -/
abbrev CommandBuilder := JsValue → Except JsError String

/-- The default `Action.describe`: the template literal
`id(JSON.stringify(params))`, identical in both variants. `JSON.stringify` may
throw (BigInt), in which case describe throws. -/
def defaultDescribe (id : String) (params : JsValue) : Except JsError String :=
  match jsonStringify params with
  | .error e => .error e
  | .ok s => .ok (id ++ "(" ++ jsTemplate s ++ ")")

/-- `CommandLineAction.run` (textually identical in both variants): build the
command (a throw in the builder propagates), merge the ambient process
environment with the `ctx.env` overrides by object spread, run the command
through the shell in `ctx.cwd`, resolve with stdout/stderr, and on failure
reject with the exec callback error (which carries the command and the cause)
unchanged. The context is only read, never written. -/
def commandLineRun (builder : CommandBuilder) (shell : ShellModel)
    (params : JsValue) (procEnv : List (String × String))
    (ctx : ExecutionContext) : RunResult JsValue :=
  match builder params with
  | .error e => ⟨[], ctx, .error e⟩
  | .ok command =>
      let env := spreadMerge procEnv ctx.env
      match shell command ctx.cwd env with
      | .success stdout stderr =>
          ⟨[.spawn command ctx.cwd env], ctx,
            .ok (.obj [("stdout", .str stdout), ("stderr", .str stderr)])⟩
      | .failure cause =>
          ⟨[.spawn command ctx.cwd env], ctx,
            .error (.execError ⟨command, cause⟩)⟩

/-- Variant B `Action.execute`, the template method inherited by every Action
subclass: when `ctx.dryRun` is truthy, compute `describe()` (a throw
propagates uncaught and nothing is logged), log exactly the line
`[dry-run][action:<id>] <description>`, and resolve with `undefined`;
otherwise delegate to the subclass's `run`. -/
def actionExecute (id : String) (describe : Except JsError String)
    (run : ExecutionContext → RunResult JsValue)
    (ctx : ExecutionContext) : RunResult JsValue :=
  if ctx.isDryRun then
    match describe with
    | .error e => ⟨[], ctx, .error e⟩
    | .ok d => ⟨[.log ("[dry-run][action:" ++ id ++ "] " ++ d)], ctx, .ok .undef⟩
  else run ctx

namespace VariantB

/-- Variant B object graph (`Action extends Executable`, params bound at
construction): `HandlerAction` (id, bound params, handler), `CommandLineAction`
(id, bound params, command builder, and the shell oracle its `run` will use),
and `Plan extends Action` (id, ordered member list; its bound params are
`undefined`). -/
inductive Exe where
  | handlerAction (id : String) (params : JsValue) (handler : HandlerFn)
  | commandLineAction (id : String) (params : JsValue)
      (builder : CommandBuilder) (shell : ShellModel)
  | plan (id : String) (members : List Exe)

/-- The inherited `Executable.id` field. -/
def Exe.id : Exe → String
  | .handlerAction i _ _ => i
  | .commandLineAction i _ _ _ => i
  | .plan i _ => i

/-- The variant B `Plan.describe` override: the plan id followed by the member
ids, `id [a, b, c]`. -/
def planDescribe (id : String) (members : List Exe) : String :=
  id ++ " [" ++ String.intercalate ", " (members.map Exe.id) ++ "]"

/-- Dynamic dispatch of `describe()`: `HandlerAction` inherits the default
(`id(JSON.stringify(params))`), `CommandLineAction` overrides it with the raw
built command string, `Plan` overrides it with the member-id listing. -/
def describe : Exe → Except JsError String
  | .handlerAction i params _ => defaultDescribe i params
  | .commandLineAction _ params builder _ => builder params
  | .plan i ms => .ok (planDescribe i ms)

mutual

/-- Variant B `execute`: every subclass inherits `Action.execute`
(`actionExecute`), supplying its own `describe` and `run`. `HandlerAction.run`
calls the user handler; `CommandLineAction.run` is `commandLineRun`;
`Plan.run` is the sequential member loop, its result array wrapped as the
plan's single resolved value. `procEnv` is the ambient `process.env`. -/
def execute (procEnv : List (String × String)) :
    Exe → ExecutionContext → RunResult JsValue
  | .handlerAction i params h, ctx =>
      actionExecute i (defaultDescribe i params) (fun c => h params c) ctx
  | .commandLineAction i params builder shell, ctx =>
      actionExecute i (builder params)
        (commandLineRun builder shell params procEnv) ctx
  | .plan i ms, ctx =>
      actionExecute i (.ok (planDescribe i ms))
        (fun c =>
          let r := runMembers procEnv ms c
          ⟨r.trace, r.ctxAfter, r.result.map .arr⟩) ctx

/-- The `Plan.run` loop, shared shape of both variants: execute each member in
insertion order, awaiting each before starting the next, accumulating results;
a rejection stops the loop and rejects the plan with that error unchanged.
The context object is passed on by reference, so the next member sees it as
the previous member left it. -/
def runMembers (procEnv : List (String × String)) :
    List Exe → ExecutionContext → RunResult (List JsValue)
  | [], ctx => ⟨[], ctx, .ok []⟩
  | e :: rest, ctx =>
      let r := execute procEnv e ctx
      match r.result with
      | .error err => ⟨r.trace, r.ctxAfter, .error err⟩
      | .ok v =>
          let rs := runMembers procEnv rest r.ctxAfter
          ⟨r.trace ++ rs.trace, rs.ctxAfter, rs.result.map (fun l => v :: l)⟩

end

/-- The body of variant B `Plan.run` as a standalone function: the member loop
with the collected results resolved as the plan's array value. `execute` on a
plan reaches this exactly when the dry-run branch is not taken. -/
def planRun (procEnv : List (String × String)) (ms : List Exe)
    (ctx : ExecutionContext) : RunResult JsValue :=
  let r := runMembers procEnv ms ctx
  ⟨r.trace, r.ctxAfter, r.result.map .arr⟩

end VariantB

namespace VariantA

/-- Variant A `Action` (stateless, not executable itself): `HandlerAction`
with a user handler, or `CommandLineAction` with a command builder and its
shell oracle. -/
inductive Action where
  | handlerAction (id : String) (handler : HandlerFn)
  | commandLineAction (id : String) (builder : CommandBuilder)
      (shell : ShellModel)

/-- The `Action.id` field. -/
def Action.id : Action → String
  | .handlerAction i _ => i
  | .commandLineAction i _ _ => i

/-- Variant A `describe(params)` dispatch: the default
`id(JSON.stringify(params))` for `HandlerAction`, the raw built command for
`CommandLineAction`. -/
def Action.describe : Action → JsValue → Except JsError String
  | .handlerAction i _, params => defaultDescribe i params
  | .commandLineAction _ builder _, params => builder params

/-- Variant A `run(params, ctx)` dispatch. -/
def Action.run (procEnv : List (String × String)) :
    Action → JsValue → ExecutionContext → RunResult JsValue
  | .handlerAction _ h, params, ctx => h params ctx
  | .commandLineAction _ builder shell, params, ctx =>
      commandLineRun builder shell params procEnv ctx

/-- Variant A executables: a `Step` binding an `Action` to concrete params, or
a `Plan` (extends `Executable` directly) holding an ordered member list. -/
inductive Exe where
  | step (id : String) (action : Action) (params : JsValue)
  | plan (id : String) (members : List Exe)

/-- `Step.execute`: on truthy `ctx.dryRun`, compute the bound action's
`describe(params)` (a throw propagates before anything is logged), log exactly
`[dry-run][step:<stepId>] <description>`, and resolve with `undefined`;
otherwise delegate to `action.run(params, ctx)`. -/
def stepExecute (procEnv : List (String × String)) (sid : String)
    (a : Action) (params : JsValue) (ctx : ExecutionContext) :
    RunResult JsValue :=
  if ctx.isDryRun then
    match a.describe params with
    | .error e => ⟨[], ctx, .error e⟩
    | .ok d => ⟨[.log ("[dry-run][step:" ++ sid ++ "] " ++ d)], ctx, .ok .undef⟩
  else a.run procEnv params ctx

mutual

/-- Variant A `execute` dispatch: `Step.execute`, or `Plan.execute`, which is
the bare member loop — `Plan` extends `Executable` directly and has no dry-run
branch of its own. -/
def execute (procEnv : List (String × String)) :
    Exe → ExecutionContext → RunResult JsValue
  | .step sid a params, ctx => stepExecute procEnv sid a params ctx
  | .plan _ ms, ctx =>
      let r := runMembers procEnv ms ctx
      ⟨r.trace, r.ctxAfter, r.result.map .arr⟩

/-- The variant A `Plan.execute` loop: identical shape to variant B's
`Plan.run`. -/
def runMembers (procEnv : List (String × String)) :
    List Exe → ExecutionContext → RunResult (List JsValue)
  | [], ctx => ⟨[], ctx, .ok []⟩
  | e :: rest, ctx =>
      let r := execute procEnv e ctx
      match r.result with
      | .error err => ⟨r.trace, r.ctxAfter, .error err⟩
      | .ok v =>
          let rs := runMembers procEnv rest r.ctxAfter
          ⟨r.trace ++ rs.trace, rs.ctxAfter, rs.result.map (fun l => v :: l)⟩

end

end VariantA

/-- The value a resolved execution produced (an arbitrary dummy on rejection;
only used underneath a hypothesis that the execution resolved). -/
def okValue (r : RunResult JsValue) : JsValue :=
  match r.result with
  | .ok v => v
  | .error _ => .null

/-- A user handler that leaves the context object it receives unmutated. Core
components always do; a handler is arbitrary user code, so this is the
hypothesis under which frame properties of the core are stated. -/
def HandlerPreserves (h : HandlerFn) : Prop :=
  ∀ p c, (h p c).ctxAfter = c

namespace VariantB

mutual

/-- Every handler reachable inside this executable leaves the received
context unmutated. -/
def Preserves : Exe → Prop
  | .handlerAction _ _ h => HandlerPreserves h
  | .commandLineAction _ _ _ _ => True
  | .plan _ ms => PreservesAll ms

/-- `Preserves` for each member of a list. -/
def PreservesAll : List Exe → Prop
  | [] => True
  | e :: rest => Preserves e ∧ PreservesAll rest

end

end VariantB

namespace VariantA

mutual

/-- Every handler reachable inside this executable leaves the received
context unmutated. -/
def Preserves : Exe → Prop
  | .step _ a _ =>
      match a with
      | .handlerAction _ h => HandlerPreserves h
      | .commandLineAction _ _ _ => True
  | .plan _ ms => PreservesAll ms

/-- `Preserves` for each member of a list. -/
def PreservesAll : List Exe → Prop
  | [] => True
  | e :: rest => Preserves e ∧ PreservesAll rest

end

end VariantA

/-! Concrete fixtures used by witness and counterexample theorems. -/

/-- A recording handler: one abstract effect, resolves with its params. -/
def wHandler : HandlerFn := fun p c => ⟨[.effect "handler-ran"], c, .ok p⟩

/-- A second, observably different handler. -/
def wHandler2 : HandlerFn := fun _ c => ⟨[.effect "handler2-ran"], c, .ok (.str "two")⟩

/-- The default command builder of `CommandLineAction`: read the `command`
field off the params. -/
def wBuilder : CommandBuilder := fun p =>
  match p with
  | .obj [("command", .str c)] => .ok c
  | _ => .error (.thrown "no command")

/-- A shell on which every command succeeds. -/
def wShellOk : ShellModel := fun _ _ _ => .success "hello\n" ""

/-- A shell on which every command fails (non-zero exit). -/
def wShellFail : ShellModel := fun _ _ _ => .failure "Command failed: exit code 1"

/-- A second, observably different succeeding shell. -/
def wShellOk2 : ShellModel := fun _ _ _ => .success "other\n" ""

/-- A plain context. -/
def wCtx : ExecutionContext := ⟨"/repo", none, none⟩

/-- A dry-run context. -/
def wCtxDry : ExecutionContext := ⟨"/repo", some true, none⟩

/-- A context with an env override. -/
def wCtxEnv : ExecutionContext := ⟨"/repo", none, some [("TEST_ENV", "1")]⟩

/-! Helper lemmas about the shared `Action.execute` template, the command
adapter, and the two member loops. -/

theorem actionExecute_dry_ok (i d run) (ctx : ExecutionContext)
    (hd : ctx.isDryRun = true) :
    actionExecute i (.ok d) run ctx =
      ⟨[.log ("[dry-run][action:" ++ i ++ "] " ++ d)], ctx, .ok .undef⟩ := by
  unfold actionExecute
  rw [if_pos hd]

theorem actionExecute_dry_error (i e run) (ctx : ExecutionContext)
    (hd : ctx.isDryRun = true) :
    actionExecute i (.error e) run ctx = ⟨[], ctx, .error e⟩ := by
  unfold actionExecute
  rw [if_pos hd]

theorem actionExecute_not_dry (i d run) (ctx : ExecutionContext)
    (hd : ctx.isDryRun = false) :
    actionExecute i d run ctx = run ctx := by
  unfold actionExecute
  rw [if_neg (by simp [hd])]

theorem commandLineRun_ctxAfter (builder shell params procEnv)
    (ctx : ExecutionContext) :
    (commandLineRun builder shell params procEnv ctx).ctxAfter = ctx := by
  unfold commandLineRun
  cases builder params with
  | error e => rfl
  | ok command =>
      dsimp only
      cases shell command ctx.cwd (spreadMerge procEnv ctx.env) <;> rfl

namespace VariantB

theorem runMembersB_cons_error (procEnv e rest) (ctx : ExecutionContext) (err)
    (h : (execute procEnv e ctx).result = .error err) :
    runMembers procEnv (e :: rest) ctx =
      ⟨(execute procEnv e ctx).trace, (execute procEnv e ctx).ctxAfter,
        .error err⟩ := by
  simp only [runMembers, h]

theorem runMembersB_cons_ok (procEnv e rest) (ctx : ExecutionContext) (v)
    (h : (execute procEnv e ctx).result = .ok v) :
    runMembers procEnv (e :: rest) ctx =
      ⟨(execute procEnv e ctx).trace ++
          (runMembers procEnv rest (execute procEnv e ctx).ctxAfter).trace,
        (runMembers procEnv rest (execute procEnv e ctx).ctxAfter).ctxAfter,
        (runMembers procEnv rest (execute procEnv e ctx).ctxAfter).result.map
          (fun l => v :: l)⟩ := by
  simp only [runMembers, h]

mutual

theorem executeB_preserves_ctx (procEnv : List (String × String)) (e : Exe)
    (hp : Preserves e) (ctx : ExecutionContext) :
    (execute procEnv e ctx).ctxAfter = ctx := by
  cases e with
  | handlerAction i params h =>
      simp only [Preserves] at hp
      simp only [execute]
      unfold actionExecute
      by_cases hd : ctx.isDryRun = true
      · rw [if_pos hd]; cases defaultDescribe i params <;> rfl
      · rw [if_neg hd]; exact hp params ctx
  | commandLineAction i params builder shell =>
      simp only [execute]
      unfold actionExecute
      by_cases hd : ctx.isDryRun = true
      · rw [if_pos hd]; cases builder params <;> rfl
      · rw [if_neg hd]; exact commandLineRun_ctxAfter builder shell params procEnv ctx
  | plan i ms =>
      simp only [Preserves] at hp
      simp only [execute]
      unfold actionExecute
      by_cases hd : ctx.isDryRun = true
      · rw [if_pos hd]
      · rw [if_neg hd]
        exact runMembersB_preserves_ctx procEnv ms hp ctx

theorem runMembersB_preserves_ctx (procEnv : List (String × String))
    (ms : List Exe) (hp : PreservesAll ms) (ctx : ExecutionContext) :
    (runMembers procEnv ms ctx).ctxAfter = ctx := by
  cases ms with
  | nil => rfl
  | cons e rest =>
      simp only [PreservesAll] at hp
      have h1 := executeB_preserves_ctx procEnv e hp.1 ctx
      cases hres : (execute procEnv e ctx).result with
      | error err => rw [runMembersB_cons_error procEnv e rest ctx _ hres]; exact h1
      | ok v =>
          rw [runMembersB_cons_ok procEnv e rest ctx _ hres]
          simp only [h1]
          exact runMembersB_preserves_ctx procEnv rest hp.2 ctx

end

theorem runMembersB_ok_length (procEnv : List (String × String)) :
    ∀ (ms : List Exe) (ctx : ExecutionContext) (vs : List JsValue),
      (runMembers procEnv ms ctx).result = .ok vs → vs.length = ms.length := by
  intro ms
  induction ms with
  | nil =>
      intro ctx vs h
      simp only [runMembers] at h
      cases h
      rfl
  | cons e rest ih =>
      intro ctx vs h
      cases hres : (execute procEnv e ctx).result with
      | error err =>
          rw [runMembersB_cons_error procEnv e rest ctx _ hres] at h
          cases h
      | ok v =>
          rw [runMembersB_cons_ok procEnv e rest ctx _ hres] at h
          cases hrs : (runMembers procEnv rest (execute procEnv e ctx).ctxAfter).result with
          | error err2 => rw [hrs] at h; cases h
          | ok l =>
              rw [hrs] at h
              cases h
              simp [ih _ _ hrs]

theorem runMembersB_all_ok (procEnv : List (String × String)) :
    ∀ (ms : List Exe) (ctx : ExecutionContext),
      PreservesAll ms →
      (∀ e ∈ ms, (execute procEnv e ctx).result.isOk = true) →
      runMembers procEnv ms ctx =
        ⟨(ms.map fun e => (execute procEnv e ctx).trace).flatten, ctx,
          .ok (ms.map fun e => okValue (execute procEnv e ctx))⟩ := by
  intro ms
  induction ms with
  | nil => intro ctx _ _; rfl
  | cons e rest ih =>
      intro ctx hp hok
      simp only [PreservesAll] at hp
      have hokE := hok e (List.mem_cons_self e rest)
      cases hres : (execute procEnv e ctx).result with
      | error err => rw [hres] at hokE; cases hokE
      | ok v =>
          rw [runMembersB_cons_ok procEnv e rest ctx _ hres]
          rw [executeB_preserves_ctx procEnv e hp.1 ctx]
          rw [ih ctx hp.2 (fun x hx => hok x (List.mem_cons_of_mem e hx))]
          simp only [List.map_cons, List.flatten_cons, Except.map]
          have : okValue (execute procEnv e ctx) = v := by
            unfold okValue; rw [hres]
          rw [this]

theorem runMembersB_fail_fast (procEnv : List (String × String)) :
    ∀ (pre : List Exe) (bad : Exe) (post : List Exe) (ctx : ExecutionContext)
      (err : JsError),
      PreservesAll pre →
      (∀ e ∈ pre, (execute procEnv e ctx).result.isOk = true) →
      (execute procEnv bad ctx).result = .error err →
      runMembers procEnv (pre ++ bad :: post) ctx =
        ⟨(pre.map fun e => (execute procEnv e ctx).trace).flatten ++
            (execute procEnv bad ctx).trace,
          (execute procEnv bad ctx).ctxAfter, .error err⟩ := by
  intro pre
  induction pre with
  | nil =>
      intro bad post ctx err _ _ hbad
      rw [List.nil_append]
      rw [runMembersB_cons_error procEnv bad post ctx _ hbad]
      simp
  | cons e rest ih =>
      intro bad post ctx err hp hok hbad
      simp only [PreservesAll] at hp
      have hokE := hok e (List.mem_cons_self e rest)
      cases hres : (execute procEnv e ctx).result with
      | error err2 => rw [hres] at hokE; cases hokE
      | ok v =>
          rw [List.cons_append]
          rw [runMembersB_cons_ok procEnv e (rest ++ bad :: post) ctx _ hres]
          rw [executeB_preserves_ctx procEnv e hp.1 ctx]
          rw [ih bad post ctx err hp.2
            (fun x hx => hok x (List.mem_cons_of_mem e hx)) hbad]
          simp [Except.map]

end VariantB

namespace VariantA

theorem runMembersA_cons_error (procEnv e rest) (ctx : ExecutionContext) (err)
    (h : (execute procEnv e ctx).result = .error err) :
    runMembers procEnv (e :: rest) ctx =
      ⟨(execute procEnv e ctx).trace, (execute procEnv e ctx).ctxAfter,
        .error err⟩ := by
  simp only [runMembers, h]

theorem runMembersA_cons_ok (procEnv e rest) (ctx : ExecutionContext) (v)
    (h : (execute procEnv e ctx).result = .ok v) :
    runMembers procEnv (e :: rest) ctx =
      ⟨(execute procEnv e ctx).trace ++
          (runMembers procEnv rest (execute procEnv e ctx).ctxAfter).trace,
        (runMembers procEnv rest (execute procEnv e ctx).ctxAfter).ctxAfter,
        (runMembers procEnv rest (execute procEnv e ctx).ctxAfter).result.map
          (fun l => v :: l)⟩ := by
  simp only [runMembers, h]

theorem stepExecuteA_preserves_ctx (procEnv sid a params)
    (hp : Preserves (.step sid a params)) (ctx : ExecutionContext) :
    (stepExecute procEnv sid a params ctx).ctxAfter = ctx := by
  unfold stepExecute
  by_cases hd : ctx.isDryRun = true
  · rw [if_pos hd]; cases a.describe params <;> rfl
  · rw [if_neg hd]
    cases a with
    | handlerAction i h =>
        simp only [Preserves] at hp
        exact hp params ctx
    | commandLineAction i builder shell =>
        exact commandLineRun_ctxAfter builder shell params procEnv ctx

mutual

theorem executeA_preserves_ctx (procEnv : List (String × String)) (e : Exe)
    (hp : Preserves e) (ctx : ExecutionContext) :
    (execute procEnv e ctx).ctxAfter = ctx := by
  cases e with
  | step sid a params =>
      simp only [execute]
      exact stepExecuteA_preserves_ctx procEnv sid a params hp ctx
  | plan i ms =>
      simp only [Preserves] at hp
      simp only [execute]
      exact runMembersA_preserves_ctx procEnv ms hp ctx

theorem runMembersA_preserves_ctx (procEnv : List (String × String))
    (ms : List Exe) (hp : PreservesAll ms) (ctx : ExecutionContext) :
    (runMembers procEnv ms ctx).ctxAfter = ctx := by
  cases ms with
  | nil => rfl
  | cons e rest =>
      simp only [PreservesAll] at hp
      have h1 := executeA_preserves_ctx procEnv e hp.1 ctx
      cases hres : (execute procEnv e ctx).result with
      | error err => rw [runMembersA_cons_error procEnv e rest ctx _ hres]; exact h1
      | ok v =>
          rw [runMembersA_cons_ok procEnv e rest ctx _ hres]
          simp only [h1]
          exact runMembersA_preserves_ctx procEnv rest hp.2 ctx

end

theorem runMembersA_ok_length (procEnv : List (String × String)) :
    ∀ (ms : List Exe) (ctx : ExecutionContext) (vs : List JsValue),
      (runMembers procEnv ms ctx).result = .ok vs → vs.length = ms.length := by
  intro ms
  induction ms with
  | nil =>
      intro ctx vs h
      simp only [runMembers] at h
      cases h
      rfl
  | cons e rest ih =>
      intro ctx vs h
      cases hres : (execute procEnv e ctx).result with
      | error err =>
          rw [runMembersA_cons_error procEnv e rest ctx _ hres] at h
          cases h
      | ok v =>
          rw [runMembersA_cons_ok procEnv e rest ctx _ hres] at h
          cases hrs : (runMembers procEnv rest (execute procEnv e ctx).ctxAfter).result with
          | error err2 => rw [hrs] at h; cases h
          | ok l =>
              rw [hrs] at h
              cases h
              simp [ih _ _ hrs]

theorem runMembersA_all_ok (procEnv : List (String × String)) :
    ∀ (ms : List Exe) (ctx : ExecutionContext),
      PreservesAll ms →
      (∀ e ∈ ms, (execute procEnv e ctx).result.isOk = true) →
      runMembers procEnv ms ctx =
        ⟨(ms.map fun e => (execute procEnv e ctx).trace).flatten, ctx,
          .ok (ms.map fun e => okValue (execute procEnv e ctx))⟩ := by
  intro ms
  induction ms with
  | nil => intro ctx _ _; rfl
  | cons e rest ih =>
      intro ctx hp hok
      simp only [PreservesAll] at hp
      have hokE := hok e (List.mem_cons_self e rest)
      cases hres : (execute procEnv e ctx).result with
      | error err => rw [hres] at hokE; cases hokE
      | ok v =>
          rw [runMembersA_cons_ok procEnv e rest ctx _ hres]
          rw [executeA_preserves_ctx procEnv e hp.1 ctx]
          rw [ih ctx hp.2 (fun x hx => hok x (List.mem_cons_of_mem e hx))]
          simp only [List.map_cons, List.flatten_cons, Except.map]
          have : okValue (execute procEnv e ctx) = v := by
            unfold okValue; rw [hres]
          rw [this]

theorem runMembersA_fail_fast (procEnv : List (String × String)) :
    ∀ (pre : List Exe) (bad : Exe) (post : List Exe) (ctx : ExecutionContext)
      (err : JsError),
      PreservesAll pre →
      (∀ e ∈ pre, (execute procEnv e ctx).result.isOk = true) →
      (execute procEnv bad ctx).result = .error err →
      runMembers procEnv (pre ++ bad :: post) ctx =
        ⟨(pre.map fun e => (execute procEnv e ctx).trace).flatten ++
            (execute procEnv bad ctx).trace,
          (execute procEnv bad ctx).ctxAfter, .error err⟩ := by
  intro pre
  induction pre with
  | nil =>
      intro bad post ctx err _ _ hbad
      rw [List.nil_append]
      rw [runMembersA_cons_error procEnv bad post ctx _ hbad]
      simp
  | cons e rest ih =>
      intro bad post ctx err hp hok hbad
      simp only [PreservesAll] at hp
      have hokE := hok e (List.mem_cons_self e rest)
      cases hres : (execute procEnv e ctx).result with
      | error err2 => rw [hres] at hokE; cases hokE
      | ok v =>
          rw [List.cons_append]
          rw [runMembersA_cons_ok procEnv e (rest ++ bad :: post) ctx _ hres]
          rw [executeA_preserves_ctx procEnv e hp.1 ctx]
          rw [ih bad post ctx err hp.2
            (fun x hx => hok x (List.mem_cons_of_mem e hx)) hbad]
          simp [Except.map]

end VariantA

/-! Claim theorems. -/

/-- C1 counterexample: an Action whose bound params contain a BigInt, executed
with `dryRun = true`, emits no log line at all (its `describe` throws inside
`JSON.stringify` before `console.log` is reached) and rejects instead of
returning the default/empty result — refuting, at this concrete input, the
claim that every dry-run `execute` "emits exactly one log line and returns a
default/empty result". -/
theorem c1_counterexample :
    (VariantB.execute [] (.handlerAction "h" (.bigint 1) wHandler) wCtxDry).trace
      = [] ∧
    (VariantB.execute [] (.handlerAction "h" (.bigint 1) wHandler) wCtxDry).result
      = .error (.typeError "Do not know how to serialize a BigInt") :=
  ⟨rfl, rfl⟩

/-- C1 (amended): for every Action (variant B) and Step (variant A) under a
dry-run context, `execute` never invokes the underlying run logic — its
outcome is independent of the run function / handler / shell — and, provided
`describe()` succeeds, it emits exactly one dry-run log line and resolves with
the default/empty result `undefined`. -/
theorem c1_dry_run_contract :
    (∀ (i : String) (d : Except JsError String)
        (run1 run2 : ExecutionContext → RunResult JsValue)
        (ctx : ExecutionContext), ctx.isDryRun = true →
        actionExecute i d run1 ctx = actionExecute i d run2 ctx) ∧
    (∀ (p1 p2 : List (String × String)) (i : String) (params : JsValue)
        (h1 h2 : HandlerFn) (ctx : ExecutionContext), ctx.isDryRun = true →
        VariantB.execute p1 (.handlerAction i params h1) ctx
          = VariantB.execute p2 (.handlerAction i params h2) ctx) ∧
    (∀ (p1 p2 : List (String × String)) (i : String) (params : JsValue)
        (b : CommandBuilder) (s1 s2 : ShellModel) (ctx : ExecutionContext),
        ctx.isDryRun = true →
        VariantB.execute p1 (.commandLineAction i params b s1) ctx
          = VariantB.execute p2 (.commandLineAction i params b s2) ctx) ∧
    (∀ (p1 p2 : List (String × String)) (sid i : String) (params : JsValue)
        (h1 h2 : HandlerFn) (ctx : ExecutionContext), ctx.isDryRun = true →
        VariantA.execute p1 (.step sid (.handlerAction i h1) params) ctx
          = VariantA.execute p2 (.step sid (.handlerAction i h2) params) ctx) ∧
    (∀ (i d : String) (run : ExecutionContext → RunResult JsValue)
        (ctx : ExecutionContext), ctx.isDryRun = true →
        actionExecute i (.ok d) run ctx =
          ⟨[.log ("[dry-run][action:" ++ i ++ "] " ++ d)], ctx, .ok .undef⟩) ∧
    (∀ (p : List (String × String)) (sid : String) (a : VariantA.Action)
        (params : JsValue) (d : String) (ctx : ExecutionContext),
        ctx.isDryRun = true → a.describe params = .ok d →
        VariantA.execute p (.step sid a params) ctx =
          ⟨[.log ("[dry-run][step:" ++ sid ++ "] " ++ d)], ctx, .ok .undef⟩) := by
  have hTemplate : ∀ (i : String) (d : Except JsError String)
      (run1 run2 : ExecutionContext → RunResult JsValue)
      (ctx : ExecutionContext), ctx.isDryRun = true →
      actionExecute i d run1 ctx = actionExecute i d run2 ctx := by
    intro i d run1 run2 ctx hd
    unfold actionExecute
    rw [if_pos hd, if_pos hd]
  refine ⟨hTemplate, ?_, ?_, ?_, ?_, ?_⟩
  · intro p1 p2 i params h1 h2 ctx hd
    simp only [VariantB.execute]
    exact hTemplate i (defaultDescribe i params) _ _ ctx hd
  · intro p1 p2 i params b s1 s2 ctx hd
    simp only [VariantB.execute]
    exact hTemplate i (b params) _ _ ctx hd
  · intro p1 p2 sid i params h1 h2 ctx hd
    simp only [VariantA.execute]
    unfold VariantA.stepExecute
    rw [if_pos hd, if_pos hd]
    simp only [VariantA.Action.describe]
  · intro i d run ctx hd
    exact actionExecute_dry_ok i d run ctx hd
  · intro p sid a params d ctx hd hdesc
    simp only [VariantA.execute]
    unfold VariantA.stepExecute
    rw [if_pos hd, hdesc]

/-- C1 witness: the dry-run contract applied at concrete inputs. -/
theorem c1_witness :
    actionExecute "a" (.ok "desc") (fun c => wHandler .null c) wCtxDry
      = actionExecute "a" (.ok "desc") (fun c => wHandler2 .null c) wCtxDry ∧
    VariantB.execute [] (.handlerAction "h" (.num 1) wHandler) wCtxDry
      = VariantB.execute [("A", "1")] (.handlerAction "h" (.num 1) wHandler2) wCtxDry ∧
    VariantB.execute [] (.commandLineAction "c" (.obj [("command", .str "git init")])
        wBuilder wShellOk) wCtxDry
      = VariantB.execute [("A", "1")] (.commandLineAction "c"
          (.obj [("command", .str "git init")]) wBuilder wShellFail) wCtxDry ∧
    VariantA.execute [] (.step "s" (.handlerAction "h" wHandler) (.num 1)) wCtxDry
      = VariantA.execute [("A", "1")] (.step "s" (.handlerAction "h" wHandler2) (.num 1)) wCtxDry ∧
    actionExecute "a" (.ok "desc") (fun c => wHandler .null c) wCtxDry
      = ⟨[.log ("[dry-run][action:" ++ "a" ++ "] " ++ "desc")], wCtxDry, .ok .undef⟩ ∧
    VariantA.execute [] (.step "s" (.handlerAction "h" wHandler) (.num 1)) wCtxDry
      = ⟨[.log ("[dry-run][step:" ++ "s" ++ "] " ++ "h(1)")], wCtxDry, .ok .undef⟩ :=
  ⟨c1_dry_run_contract.1 "a" (.ok "desc") _ _ wCtxDry rfl,
   c1_dry_run_contract.2.1 [] [("A", "1")] "h" (.num 1) wHandler wHandler2 wCtxDry rfl,
   c1_dry_run_contract.2.2.1 [] [("A", "1")] "c" (.obj [("command", .str "git init")])
     wBuilder wShellOk wShellFail wCtxDry rfl,
   c1_dry_run_contract.2.2.2.1 [] [("A", "1")] "s" "h" (.num 1) wHandler wHandler2 wCtxDry rfl,
   c1_dry_run_contract.2.2.2.2.1 "a" "desc" (fun c => wHandler .null c) wCtxDry rfl,
   c1_dry_run_contract.2.2.2.2.2 [] "s" (.handlerAction "h" wHandler) (.num 1) "h(1)"
     wCtxDry rfl rfl⟩

/-- C2: if a member fails during the plan loop, no member after it is
executed (the trace ends with the failing member's trace), and the plan's
execution fails with exactly that member's failure, unwrapped — for variant
B's `Plan.run` and variant A's `Plan.execute`. -/
theorem c2_plan_fail_fast :
    (∀ (p : List (String × String)) (pre : List VariantB.Exe)
        (bad : VariantB.Exe) (post : List VariantB.Exe)
        (ctx : ExecutionContext) (err : JsError),
        VariantB.PreservesAll pre →
        (∀ e ∈ pre, (VariantB.execute p e ctx).result.isOk = true) →
        (VariantB.execute p bad ctx).result = .error err →
        (VariantB.planRun p (pre ++ bad :: post) ctx).result = .error err ∧
        (VariantB.planRun p (pre ++ bad :: post) ctx).trace =
          (pre.map fun e => (VariantB.execute p e ctx).trace).flatten ++
            (VariantB.execute p bad ctx).trace) ∧
    (∀ (p : List (String × String)) (i : String) (pre : List VariantA.Exe)
        (bad : VariantA.Exe) (post : List VariantA.Exe)
        (ctx : ExecutionContext) (err : JsError),
        VariantA.PreservesAll pre →
        (∀ e ∈ pre, (VariantA.execute p e ctx).result.isOk = true) →
        (VariantA.execute p bad ctx).result = .error err →
        (VariantA.execute p (.plan i (pre ++ bad :: post)) ctx).result = .error err ∧
        (VariantA.execute p (.plan i (pre ++ bad :: post)) ctx).trace =
          (pre.map fun e => (VariantA.execute p e ctx).trace).flatten ++
            (VariantA.execute p bad ctx).trace) := by
  constructor
  · intro p pre bad post ctx err hp hok hbad
    unfold VariantB.planRun
    rw [VariantB.runMembersB_fail_fast p pre bad post ctx err hp hok hbad]
    exact ⟨rfl, rfl⟩
  · intro p i pre bad post ctx err hp hok hbad
    simp only [VariantA.execute]
    rw [VariantA.runMembersA_fail_fast p pre bad post ctx err hp hok hbad]
    exact ⟨rfl, rfl⟩

/-- C2 witness: a two-member plan whose first member succeeds and second
member fails (non-zero exit of its command): the plan rejects with exactly the
exec error, and the trace shows the third member never ran. -/
theorem c2_witness :
    (VariantB.planRun []
        [VariantB.Exe.handlerAction "ok" (.num 1) wHandler,
         VariantB.Exe.commandLineAction "cmd" (.obj [("command", .str "git init")])
           wBuilder wShellFail,
         VariantB.Exe.handlerAction "never" (.num 2) wHandler] wCtx).result
      = .error (.execError ⟨"git init", "Command failed: exit code 1"⟩) ∧
    (VariantB.planRun []
        [VariantB.Exe.handlerAction "ok" (.num 1) wHandler,
         VariantB.Exe.commandLineAction "cmd" (.obj [("command", .str "git init")])
           wBuilder wShellFail,
         VariantB.Exe.handlerAction "never" (.num 2) wHandler] wCtx).trace
      = [.effect "handler-ran", .spawn "git init" "/repo" []] :=
  ⟨((c2_plan_fail_fast.1 [] [.handlerAction "ok" (.num 1) wHandler]
      (.commandLineAction "cmd" (.obj [("command", .str "git init")]) wBuilder wShellFail)
      [.handlerAction "never" (.num 2) wHandler] wCtx
      (.execError ⟨"git init", "Command failed: exit code 1"⟩)
      (by simp only [VariantB.PreservesAll, VariantB.Preserves]
          exact ⟨fun _ _ => rfl, trivial⟩)
      (by intro e he; fin_cases he; rfl) rfl).1),
   ((c2_plan_fail_fast.1 [] [.handlerAction "ok" (.num 1) wHandler]
      (.commandLineAction "cmd" (.obj [("command", .str "git init")]) wBuilder wShellFail)
      [.handlerAction "never" (.num 2) wHandler] wCtx
      (.execError ⟨"git init", "Command failed: exit code 1"⟩)
      (by simp only [VariantB.PreservesAll, VariantB.Preserves]
          exact ⟨fun _ _ => rfl, trivial⟩)
      (by intro e he; fin_cases he; rfl) rfl).2)⟩

/-- C3: when all members succeed (and, per the context-immutability contract,
no member mutates the shared context), the plan loop executes each member in
insertion order — the trace is the concatenation of the member traces in that
order — and resolves with the sequence of member results in the same order,
one element per member; a nested plan's aggregated array appears as a single
element. Stated for variant B's `Plan.run` and variant A's `Plan.execute`. -/
theorem c3_plan_sequential :
    (∀ (p : List (String × String)) (ms : List VariantB.Exe)
        (ctx : ExecutionContext),
        VariantB.PreservesAll ms →
        (∀ e ∈ ms, (VariantB.execute p e ctx).result.isOk = true) →
        VariantB.planRun p ms ctx =
          ⟨(ms.map fun e => (VariantB.execute p e ctx).trace).flatten, ctx,
            .ok (.arr (ms.map fun e => okValue (VariantB.execute p e ctx)))⟩) ∧
    (∀ (p : List (String × String)) (i : String) (ms : List VariantA.Exe)
        (ctx : ExecutionContext),
        VariantA.PreservesAll ms →
        (∀ e ∈ ms, (VariantA.execute p e ctx).result.isOk = true) →
        VariantA.execute p (.plan i ms) ctx =
          ⟨(ms.map fun e => (VariantA.execute p e ctx).trace).flatten, ctx,
            .ok (.arr (ms.map fun e => okValue (VariantA.execute p e ctx)))⟩) := by
  constructor
  · intro p ms ctx hp hok
    unfold VariantB.planRun
    rw [VariantB.runMembersB_all_ok p ms ctx hp hok]
    rfl
  · intro p i ms ctx hp hok
    simp only [VariantA.execute]
    rw [VariantA.runMembersA_all_ok p ms ctx hp hok]
    rfl

/-- C3 witness: an outer plan containing a nested plan and a leaf action; the
members run in order and the nested plan's aggregated array is a single
element of the outer result sequence. -/
theorem c3_witness :
    VariantB.planRun []
        [VariantB.Exe.plan "inner" [.handlerAction "a" (.num 1) wHandler],
         VariantB.Exe.handlerAction "b" (.str "x") wHandler] wCtx
      = ⟨[.effect "handler-ran", .effect "handler-ran"], wCtx,
          .ok (.arr [.arr [.num 1], .str "x"])⟩ :=
  (c3_plan_sequential.1 []
    [.plan "inner" [.handlerAction "a" (.num 1) wHandler],
     .handlerAction "b" (.str "x") wHandler] wCtx
    (by simp only [VariantB.PreservesAll, VariantB.Preserves]
        exact ⟨⟨fun _ _ => rfl, trivial⟩, fun _ _ => rfl, trivial⟩)
    (by intro e he; fin_cases he <;> rfl)).trans rfl

/-- C4: when the shell reports that the command could not be spawned or
exited with a non-zero/abnormal status, `CommandLineAction.run` rejects with
the command-execution error carrying the triggering cause and the command
string (the `exec` callback error, propagated unchanged). -/
theorem c4_command_execution_error (builder : CommandBuilder)
    (shell : ShellModel) (params : JsValue) (procEnv : List (String × String))
    (ctx : ExecutionContext) (cmd cause : String)
    (hb : builder params = .ok cmd)
    (hs : shell cmd ctx.cwd (spreadMerge procEnv ctx.env) = .failure cause) :
    commandLineRun builder shell params procEnv ctx =
      ⟨[.spawn cmd ctx.cwd (spreadMerge procEnv ctx.env)], ctx,
        .error (.execError ⟨cmd, cause⟩)⟩ := by
  unfold commandLineRun
  rw [hb]
  dsimp only
  rw [hs]

/-- C4 witness: a failing `git init` rejects with the exec error carrying the
command string and the exit cause. -/
theorem c4_witness :
    commandLineRun wBuilder wShellFail (.obj [("command", .str "git init")])
        [("PATH", "/bin")] wCtx =
      ⟨[.spawn "git init" "/repo" [("PATH", "/bin")]], wCtx,
        .error (.execError ⟨"git init", "Command failed: exit code 1"⟩)⟩ :=
  c4_command_execution_error wBuilder wShellFail (.obj [("command", .str "git init")])
    [("PATH", "/bin")] wCtx "git init" "Command failed: exit code 1" rfl rfl

/-- C5 counterexample: a `Step` (the variant the claim also cites) executed
with `dryRun = true` logs `[dry-run][step:<stepId>] <description>` — with the
`step` kind tag and the Step's own id — which differs from the claimed
`[dry-run][action:<id>] <description>` whether `<id>` is taken as the step's
id or the bound action's id. -/
theorem c5_counterexample :
    (VariantA.execute [] (.step "s1" (.handlerAction "h1" wHandler) (.obj []))
        wCtxDry).trace
      = [.log "[dry-run][step:s1] h1(\x7b\x7d)"] ∧
    "[dry-run][step:s1] h1(\x7b\x7d)" ≠ "[dry-run][action:s1] h1(\x7b\x7d)" ∧
    "[dry-run][step:s1] h1(\x7b\x7d)" ≠ "[dry-run][action:h1] h1(\x7b\x7d)" :=
  ⟨rfl, by decide, by decide⟩

/-- C5 (amended): under `dryRun = true`, a variant B Action whose `describe()`
yields `d` logs exactly the single line `[dry-run][action:<id>] d`, while a
variant A Step whose bound action's `describe(params)` yields `d` logs exactly
the single line `[dry-run][step:<stepId>] d`. -/
theorem c5_dry_run_log_format :
    (∀ (p : List (String × String)) (a : VariantB.Exe) (ctx : ExecutionContext)
        (d : String), ctx.isDryRun = true → VariantB.describe a = .ok d →
        (VariantB.execute p a ctx).trace
          = [.log ("[dry-run][action:" ++ a.id ++ "] " ++ d)]) ∧
    (∀ (p : List (String × String)) (sid : String) (a : VariantA.Action)
        (params : JsValue) (ctx : ExecutionContext) (d : String),
        ctx.isDryRun = true → a.describe params = .ok d →
        (VariantA.execute p (.step sid a params) ctx).trace
          = [.log ("[dry-run][step:" ++ sid ++ "] " ++ d)]) := by
  constructor
  · intro p a ctx d hd hdesc
    cases a with
    | handlerAction i params h =>
        simp only [VariantB.describe] at hdesc
        simp only [VariantB.execute, VariantB.Exe.id]
        rw [hdesc, actionExecute_dry_ok i d _ ctx hd]
    | commandLineAction i params builder shell =>
        simp only [VariantB.describe] at hdesc
        simp only [VariantB.execute, VariantB.Exe.id]
        rw [hdesc, actionExecute_dry_ok i d _ ctx hd]
    | plan i ms =>
        simp only [VariantB.describe] at hdesc
        simp only [VariantB.execute, VariantB.Exe.id]
        cases hdesc
        rw [actionExecute_dry_ok i _ _ ctx hd]
  · intro p sid a params ctx d hd hdesc
    simp only [VariantA.execute]
    unfold VariantA.stepExecute
    rw [if_pos hd, hdesc]

/-- C5 witness: the amended format at concrete actions. -/
theorem c5_witness :
    (VariantB.execute [] (.handlerAction "handler" (.obj [("foo", .str "bar")])
        wHandler) wCtxDry).trace
      = [.log ("[dry-run][action:" ++ "handler" ++ "] "
          ++ "handler(\x7b\"foo\":\"bar\"\x7d)")] ∧
    (VariantA.execute [] (.step "step-2" (.handlerAction "handler" wHandler)
        (.obj [("foo", .str "bar")])) wCtxDry).trace
      = [.log ("[dry-run][step:" ++ "step-2" ++ "] "
          ++ "handler(\x7b\"foo\":\"bar\"\x7d)")] :=
  ⟨c5_dry_run_log_format.1 []
     (.handlerAction "handler" (.obj [("foo", .str "bar")]) wHandler)
     wCtxDry "handler(\x7b\"foo\":\"bar\"\x7d)" rfl rfl,
   c5_dry_run_log_format.2 [] "step-2" (.handlerAction "handler" wHandler)
     (.obj [("foo", .str "bar")]) wCtxDry "handler(\x7b\"foo\":\"bar\"\x7d)" rfl rfl⟩

/-- C6: an Action that does not override the default `describe` renders
`<id>(<JSON-serialization of the bound params>)` (both variants), while
`CommandLineAction.describe` returns the built command string verbatim, not
JSON-wrapped (both variants). -/
theorem c6_describe_format :
    (∀ (i : String) (params : JsValue) (s : String) (h : HandlerFn),
        jsonStringify params = .ok (some s) →
        VariantB.describe (.handlerAction i params h)
          = .ok (i ++ "(" ++ s ++ ")")) ∧
    (∀ (i : String) (h : HandlerFn) (params : JsValue) (s : String),
        jsonStringify params = .ok (some s) →
        VariantA.Action.describe (.handlerAction i h) params
          = .ok (i ++ "(" ++ s ++ ")")) ∧
    (∀ (i : String) (params : JsValue) (b : CommandBuilder) (sh : ShellModel),
        VariantB.describe (.commandLineAction i params b sh) = b params) ∧
    (∀ (i : String) (b : CommandBuilder) (sh : ShellModel) (params : JsValue),
        VariantA.Action.describe (.commandLineAction i b sh) params
          = b params) := by
  refine ⟨?_, ?_, ?_, ?_⟩
  · intro i params s h hs
    simp only [VariantB.describe]
    unfold defaultDescribe
    rw [hs]
    rfl
  · intro i h params s hs
    simp only [VariantA.Action.describe]
    unfold defaultDescribe
    rw [hs]
    rfl
  · intro i params b sh
    rfl
  · intro i b sh params
    rfl

/-- C6 witness: the default rendering on the params of the repository's own
test (`sample(\x7b"value":"abc"\x7d)`) and the verbatim command rendering. -/
theorem c6_witness :
    VariantB.describe (.handlerAction "sample" (.obj [("value", .str "abc")])
        wHandler)
      = .ok "sample(\x7b\"value\":\"abc\"\x7d)" ∧
    VariantA.Action.describe (.handlerAction "sample" wHandler)
        (.obj [("value", .str "abc")])
      = .ok "sample(\x7b\"value\":\"abc\"\x7d)" ∧
    VariantB.describe (.commandLineAction "cmd"
        (.obj [("command", .str "echo \"hello\"")]) wBuilder wShellOk)
      = .ok "echo \"hello\"" ∧
    VariantA.Action.describe (.commandLineAction "cmd" wBuilder wShellOk)
        (.obj [("command", .str "echo \"hello\"")])
      = .ok "echo \"hello\"" :=
  ⟨c6_describe_format.1 "sample" (.obj [("value", .str "abc")])
     "\x7b\"value\":\"abc\"\x7d" wHandler rfl,
   c6_describe_format.2.1 "sample" wHandler (.obj [("value", .str "abc")])
     "\x7b\"value\":\"abc\"\x7d" rfl,
   (c6_describe_format.2.2.1 "cmd" (.obj [("command", .str "echo \"hello\"")])
     wBuilder wShellOk).trans rfl,
   (c6_describe_format.2.2.2 "cmd" wBuilder wShellOk
     (.obj [("command", .str "echo \"hello\"")])).trans rfl⟩

/-- C7: the spawned process's environment is the ambient process environment
spread-merged with the `ctx.env` overrides — on a key present in both, the
`ctx.env` value wins; with `ctx.env` omitted the ambient environment is passed
unchanged — and `CommandLineAction.run` passes exactly that merged environment
to the shell. -/
theorem c7_env_merge :
    (∀ (base ov : List (String × String)) (k : String),
        jsLookup (spreadMerge base (some ov)) k =
          match jsLookup ov k with
          | some v => some v
          | none => jsLookup base k) ∧
    (∀ base : List (String × String), spreadMerge base none = base) ∧
    (∀ (builder : CommandBuilder) (shell : ShellModel) (params : JsValue)
        (procEnv : List (String × String)) (ctx : ExecutionContext)
        (cmd : String), builder params = .ok cmd →
        (commandLineRun builder shell params procEnv ctx).trace =
          [.spawn cmd ctx.cwd (spreadMerge procEnv ctx.env)]) := by
  refine ⟨?_, ?_, ?_⟩
  · intro base ov k
    unfold jsLookup spreadMerge
    rw [Option.getD_some, List.reverse_append, List.find?_append]
    cases h : ov.reverse.find? (fun p => p.1 == k) with
    | none => simp [h, Option.orElse]
    | some v => simp [h, Option.orElse]
  · intro base
    simp [spreadMerge]
  · intro builder shell params procEnv ctx cmd hb
    unfold commandLineRun
    rw [hb]
    dsimp only
    cases shell cmd ctx.cwd (spreadMerge procEnv ctx.env) <;> rfl

/-- C7 witness: an override key wins, an absent key falls back to the ambient
value, an omitted `ctx.env` passes the ambient environment through, and the
run actually spawns with the merged environment. -/
theorem c7_witness :
    jsLookup (spreadMerge [("PATH", "/bin"), ("TEST_ENV", "0")]
        (some [("TEST_ENV", "1")])) "TEST_ENV" = some "1" ∧
    jsLookup (spreadMerge [("PATH", "/bin"), ("TEST_ENV", "0")]
        (some [("TEST_ENV", "1")])) "PATH" = some "/bin" ∧
    spreadMerge [("PATH", "/bin")] none = [("PATH", "/bin")] ∧
    (commandLineRun wBuilder wShellOk (.obj [("command", .str "echo hello")])
        [("PATH", "/bin")] wCtxEnv).trace =
      [.spawn "echo hello" "/repo" [("PATH", "/bin"), ("TEST_ENV", "1")]] :=
  ⟨(c7_env_merge.1 [("PATH", "/bin"), ("TEST_ENV", "0")] [("TEST_ENV", "1")]
      "TEST_ENV").trans (by decide),
   (c7_env_merge.1 [("PATH", "/bin"), ("TEST_ENV", "0")] [("TEST_ENV", "1")]
      "PATH").trans (by decide),
   c7_env_merge.2.1 [("PATH", "/bin")],
   (c7_env_merge.2.2 wBuilder wShellOk (.obj [("command", .str "echo hello")])
      [("PATH", "/bin")] wCtxEnv "echo hello" rfl).trans rfl⟩

/-- C8: if `describe()` throws under `dryRun = true`, `execute` rejects with
exactly that failure — uncaught — while still never invoking the underlying
run logic: the whole outcome is the empty-trace rejection, independent of the
run function. Stated for the shared `Action.execute` template, every variant B
Action, and variant A Steps. -/
theorem c8_dry_run_describe_throws :
    (∀ (i : String) (e : JsError) (run : ExecutionContext → RunResult JsValue)
        (ctx : ExecutionContext), ctx.isDryRun = true →
        actionExecute i (.error e) run ctx = ⟨[], ctx, .error e⟩) ∧
    (∀ (p : List (String × String)) (a : VariantB.Exe) (ctx : ExecutionContext)
        (e : JsError), ctx.isDryRun = true → VariantB.describe a = .error e →
        VariantB.execute p a ctx = ⟨[], ctx, .error e⟩) ∧
    (∀ (p : List (String × String)) (sid : String) (a : VariantA.Action)
        (params : JsValue) (ctx : ExecutionContext) (e : JsError),
        ctx.isDryRun = true → a.describe params = .error e →
        VariantA.execute p (.step sid a params) ctx = ⟨[], ctx, .error e⟩) := by
  refine ⟨?_, ?_, ?_⟩
  · intro i e run ctx hd
    exact actionExecute_dry_error i e run ctx hd
  · intro p a ctx e hd hdesc
    cases a with
    | handlerAction i params h =>
        simp only [VariantB.describe] at hdesc
        simp only [VariantB.execute]
        rw [hdesc, actionExecute_dry_error i e _ ctx hd]
    | commandLineAction i params builder shell =>
        simp only [VariantB.describe] at hdesc
        simp only [VariantB.execute]
        rw [hdesc, actionExecute_dry_error i e _ ctx hd]
    | plan i ms =>
        simp only [VariantB.describe] at hdesc
        exact Except.noConfusion hdesc
  · intro p sid a params ctx e hd hdesc
    simp only [VariantA.execute]
    unfold VariantA.stepExecute
    rw [if_pos hd, hdesc]

/-- C8 witness: BigInt params make the default `describe` throw inside
`JSON.stringify`; the dry-run execute rejects with that `TypeError`, logging
nothing and running nothing. -/
theorem c8_witness :
    actionExecute "a" (.error (.thrown "boom")) (fun c => wHandler .null c)
        wCtxDry
      = ⟨[], wCtxDry, .error (.thrown "boom")⟩ ∧
    VariantB.execute [] (.handlerAction "h" (.bigint 7) wHandler) wCtxDry
      = ⟨[], wCtxDry, .error (.typeError "Do not know how to serialize a BigInt")⟩ ∧
    VariantA.execute [] (.step "s" (.handlerAction "h" wHandler) (.bigint 7))
        wCtxDry
      = ⟨[], wCtxDry, .error (.typeError "Do not know how to serialize a BigInt")⟩ :=
  ⟨c8_dry_run_describe_throws.1 "a" (.thrown "boom") (fun c => wHandler .null c)
     wCtxDry rfl,
   c8_dry_run_describe_throws.2.1 [] (.handlerAction "h" (.bigint 7) wHandler)
     wCtxDry (.typeError "Do not know how to serialize a BigInt") rfl rfl,
   c8_dry_run_describe_throws.2.2 [] "s" (.handlerAction "h" wHandler)
     (.bigint 7) wCtxDry (.typeError "Do not know how to serialize a BigInt")
     rfl rfl⟩

/-- C9: no core component mutates the execution context it receives: whenever
every user-supplied handler reachable in the executable leaves the received
context unmutated, the whole execution (either variant) leaves the context
exactly as it was — the core itself adds no mutation anywhere. -/
theorem c9_context_immutable :
    (∀ (p : List (String × String)) (e : VariantB.Exe)
        (ctx : ExecutionContext), VariantB.Preserves e →
        (VariantB.execute p e ctx).ctxAfter = ctx) ∧
    (∀ (p : List (String × String)) (e : VariantA.Exe)
        (ctx : ExecutionContext), VariantA.Preserves e →
        (VariantA.execute p e ctx).ctxAfter = ctx) :=
  ⟨fun p e ctx hp => VariantB.executeB_preserves_ctx p e hp ctx,
   fun p e ctx hp => VariantA.executeA_preserves_ctx p e hp ctx⟩

/-- C9 witness: a plan of a handler action and a command action leaves the
context untouched, in both variants. -/
theorem c9_witness :
    (VariantB.execute [] (.plan "p"
        [.handlerAction "h" (.num 1) wHandler,
         .commandLineAction "c" (.obj [("command", .str "git init")])
           wBuilder wShellOk]) wCtx).ctxAfter = wCtx ∧
    (VariantA.execute [] (.plan "p"
        [.step "s" (.handlerAction "h" wHandler) (.num 1),
         .step "t" (.commandLineAction "c" wBuilder wShellOk)
           (.obj [("command", .str "git init")])]) wCtx).ctxAfter = wCtx :=
  ⟨c9_context_immutable.1 [] _ wCtx
     (by simp only [VariantB.Preserves, VariantB.PreservesAll]
         exact ⟨fun _ _ => rfl, trivial, trivial⟩),
   c9_context_immutable.2 [] _ wCtx
     (by simp only [VariantA.Preserves, VariantA.PreservesAll]
         exact ⟨fun _ _ => rfl, trivial, trivial⟩)⟩

/-- C10 counterexample: the variant A Plan with `dryRun = true` and a single
member whose dry-run `describe` throws (BigInt params) rejects — it does not
return a list with one element per member — so the claim's unconditional
"every member list" quantification fails at this input. -/
theorem c10_counterexample :
    (VariantA.execute [] (.plan "p"
        [.step "s" (.handlerAction "a" wHandler) (.bigint 1)]) wCtxDry).result
      = .error (.typeError "Do not know how to serialize a BigInt") ∧
    (VariantA.execute [] (.plan "p"
        [.step "s" (.handlerAction "a" wHandler) (.bigint 1)]) wCtxDry).trace
      = [] :=
  ⟨rfl, rfl⟩

/-- C10 (amended): the variant A Plan (extending `Executable` directly)
performs no dry-run interception of its own: for every context — dry-run
included — its execution is exactly the member loop (so it emits no dry-run
line of its own); whenever the loop resolves it yields exactly one element
per member; and under `dryRun = true`, when every member's execute succeeds
(and mutates nothing), the members run in insertion order and the plan
resolves with one result per member, its trace being exactly the members'
traces concatenated. -/
theorem c10_plan_no_dry_interception :
    (∀ (p : List (String × String)) (i : String) (ms : List VariantA.Exe)
        (ctx : ExecutionContext),
        VariantA.execute p (.plan i ms) ctx =
          ⟨(VariantA.runMembers p ms ctx).trace,
            (VariantA.runMembers p ms ctx).ctxAfter,
            (VariantA.runMembers p ms ctx).result.map .arr⟩) ∧
    (∀ (p : List (String × String)) (ms : List VariantA.Exe)
        (ctx : ExecutionContext) (vs : List JsValue),
        (VariantA.runMembers p ms ctx).result = .ok vs →
        vs.length = ms.length) ∧
    (∀ (p : List (String × String)) (i : String) (ms : List VariantA.Exe)
        (ctx : ExecutionContext), ctx.isDryRun = true →
        VariantA.PreservesAll ms →
        (∀ e ∈ ms, (VariantA.execute p e ctx).result.isOk = true) →
        VariantA.execute p (.plan i ms) ctx =
          ⟨(ms.map fun e => (VariantA.execute p e ctx).trace).flatten, ctx,
            .ok (.arr (ms.map fun e => okValue (VariantA.execute p e ctx)))⟩) := by
  refine ⟨?_, ?_, ?_⟩
  · intro p i ms ctx
    rfl
  · intro p ms ctx vs h
    exact VariantA.runMembersA_ok_length p ms ctx vs h
  · intro p i ms ctx _ hp hok
    simp only [VariantA.execute]
    rw [VariantA.runMembersA_all_ok p ms ctx hp hok]
    rfl

/-- C10 witness: a dry-run plan of two steps runs both members (each logs its
own dry-run line), returns one `undefined` per member, and adds no plan-level
log line. -/
theorem c10_witness :
    VariantA.execute [] (.plan "p"
        [.step "s1" (.handlerAction "a" wHandler) (.num 1),
         .step "s2" (.handlerAction "b" wHandler) (.num 2)]) wCtxDry
      = ⟨[.log "[dry-run][step:s1] a(1)", .log "[dry-run][step:s2] b(2)"],
          wCtxDry, .ok (.arr [.undef, .undef])⟩ :=
  (c10_plan_no_dry_interception.2.2 [] "p"
    [.step "s1" (.handlerAction "a" wHandler) (.num 1),
     .step "s2" (.handlerAction "b" wHandler) (.num 2)] wCtxDry rfl
    (by simp only [VariantA.PreservesAll, VariantA.Preserves]
        exact ⟨fun _ _ => rfl, fun _ _ => rfl, trivial⟩)
    (by intro e he; fin_cases he <;> rfl)).trans rfl

end CliPlanExecutor
